import Mathlib

/-!
# Verification of the d2dwebapp signaling substrate

Shallow embedding of the core of `src/server.js` (WebSocket frame codec,
handshake negotiator, room broker) and `src/public/app.js` (perfect-negotiation
state machine), with theorems settling the specification claims.

Bytes are modelled as `Nat` values below 256.  JavaScript bitwise operations
on byte-sized values are embedded by the arithmetic identities
`x & 0x7f = x % 128`, `(x & 0x80) != 0  <->  x / 128 % 2 = 1`,
`x & 0x0f = x % 16`, and `(x >> (8*k)) & 0xff = x / 2^(8*k) % 256`
(exact for `x < 2^32`, the only lengths a Node `Buffer` can carry).
Powers of two are written as numeral literals to keep arithmetic automation
applicable: `65536 = 2^16`, `16777216 = 2^24`, `4294967296 = 2^32`.
-/

namespace D2D

/-! ## Frame codec (`src/server.js`, lines 52–118) -/

/-- `createWebSocketFrame` (src/server.js lines 52–75): a single unfragmented
text frame — first byte `0x81` (FIN + text opcode), unmasked, with the
payload-length field width chosen by size exactly as in the source:
7-bit inline for `< 126`, 16-bit big-endian for `< 65536`, else 64-bit
big-endian whose high four bytes are written as zero. -/
def createWebSocketFrame (payload : List Nat) : List Nat :=
  let len := payload.length
  if len < 126 then
    0x81 :: len :: payload
  else if len < 65536 then
    0x81 :: 126 :: (len / 256 % 256) :: (len % 256) :: payload
  else
    0x81 :: 127 :: 0 :: 0 :: 0 :: 0 ::
      (len / 16777216 % 256) :: (len / 65536 % 256) ::
      (len / 256 % 256) :: (len % 256) :: payload

/-- The tail of one iteration of the `parseFrames` loop (src/server.js lines
97–115), after the first byte, the payload length, the header length and the
mask bit have been decoded: bounds check against the buffer, optional
unmasking (XOR with mask byte `i % 4`), opcode filter (only text opcode `0x1`
surfaces a message), and advance past `frameEnd`.  `none` models the loop's
`break` (too few bytes for the full frame). -/
def finishFrame (buffer : List Nat) (first payloadLength headerLength : Nat)
    (isMasked : Bool) : Option (Option (List Nat) × List Nat) :=
  let dataOffset := headerLength + (if isMasked then 4 else 0)
  let frameEnd := dataOffset + payloadLength
  if buffer.length < frameEnd then none
  else
    let raw := (buffer.drop dataOffset).take payloadLength
    let mask := (buffer.drop headerLength).take 4
    let payload :=
      if isMasked then
        (List.range payloadLength).map (fun i => raw.getD i 0 ^^^ mask.getD (i % 4) 0)
      else raw
    some (if first % 16 = 1 then some payload else none, buffer.drop frameEnd)

/-- One iteration of the `parseFrames` loop (src/server.js lines 80–115):
`none` when fewer than 2 bytes remain, or when the extended-length bytes are
incomplete (the loop's `break`s); otherwise the optionally-surfaced message
and the rest of the buffer.  Note that in the 127 branch the source reads
`readUInt32BE(offset + 6)`, i.e. only bytes 6–9; bytes 2–5 are skipped. -/
def parseOneFrame : List Nat → Option (Option (List Nat) × List Nat)
  | f :: s :: rest =>
    if s % 128 = 126 then
      match rest with
      | b2 :: b3 :: _ =>
        finishFrame (f :: s :: rest) f (b2 * 256 + b3) 4 (s / 128 % 2 == 1)
      | _ => none
    else if s % 128 = 127 then
      match rest with
      | _ :: _ :: _ :: _ :: b6 :: b7 :: b8 :: b9 :: _ =>
        finishFrame (f :: s :: rest) f
          (b6 * 16777216 + b7 * 65536 + b8 * 256 + b9) 10 (s / 128 % 2 == 1)
      | _ => none
    else
      finishFrame (f :: s :: rest) f (s % 128) 2 (s / 128 % 2 == 1)
  | _ => none

/-- The `parseFrames` loop (src/server.js lines 77–118) with explicit fuel.
Each successful iteration consumes at least the 2-byte header
(`parseOneFrame_rest_lt`), so fuel equal to the buffer length is always
sufficient (`parseFramesAux_fuel_irrelevant`). -/
def parseFramesAux : Nat → List Nat → List (List Nat) × List Nat
  | 0, buffer => ([], buffer)
  | fuel + 1, buffer =>
    match parseOneFrame buffer with
    | none => ([], buffer)
    | some (msgOpt, rest) =>
      let r := parseFramesAux fuel rest
      (match msgOpt with | some m => m :: r.1 | none => r.1, r.2)

/-- `parseFrames` (src/server.js lines 77–118): surfaced text messages plus
the unconsumed remainder of the buffer. -/
def parseFrames (buffer : List Nat) : List (List Nat) × List Nat :=
  parseFramesAux buffer.length buffer

theorem finishFrame_rest_lt {buffer : List Nat} {f pl hl : Nat} {m : Bool}
    {o : Option (List Nat)} {rest : List Nat} (hhl : 1 ≤ hl)
    (h : finishFrame buffer f pl hl m = some (o, rest)) :
    rest.length < buffer.length := by
  simp only [finishFrame] at h
  by_cases hc : buffer.length < hl + (if m then 4 else 0) + pl
  · rw [if_pos hc] at h
    exact absurd h (by simp)
  · rw [if_neg hc] at h
    simp only [Option.some.injEq, Prod.mk.injEq] at h
    obtain ⟨-, hrest⟩ := h
    subst hrest
    have hk : (if m then 4 else 0) = 4 ∨ (if m then 4 else 0) = 0 := by
      cases m <;> simp
    simp only [List.length_drop]
    rcases hk with hk | hk <;> rw [hk] at hc ⊢ <;> omega

theorem parseOneFrame_rest_lt {b : List Nat} {o : Option (List Nat)}
    {rest : List Nat} (h : parseOneFrame b = some (o, rest)) :
    rest.length < b.length := by
  match b with
  | [] => simp [parseOneFrame] at h
  | [f] => simp [parseOneFrame] at h
  | f :: s :: t =>
    simp only [parseOneFrame] at h
    by_cases h126 : s % 128 = 126
    · rw [if_pos h126] at h
      match t, h with
      | [], h => simp at h
      | [b2], h => simp at h
      | b2 :: b3 :: t', h => exact finishFrame_rest_lt (by omega) h
    · rw [if_neg h126] at h
      by_cases h127 : s % 128 = 127
      · rw [if_pos h127] at h
        match t, h with
        | [], h => simp at h
        | [b2], h => simp at h
        | [b2, b3], h => simp at h
        | [b2, b3, b4], h => simp at h
        | [b2, b3, b4, b5], h => simp at h
        | [b2, b3, b4, b5, b6], h => simp at h
        | [b2, b3, b4, b5, b6, b7], h => simp at h
        | [b2, b3, b4, b5, b6, b7, b8], h => simp at h
        | b2 :: b3 :: b4 :: b5 :: b6 :: b7 :: b8 :: b9 :: t', h =>
          exact finishFrame_rest_lt (by omega) h
      · rw [if_neg h127] at h
        exact finishFrame_rest_lt (by omega) h

/-- Sanity check of the fuel-based embedding of the parse loop: any fuel of at
least the buffer length gives the same result, so `parseFrames`' choice of
`buffer.length` is faithful to the unbounded `while` loop of the source. -/
theorem parseFramesAux_fuel_irrelevant :
    ∀ (f1 f2 : Nat) (b : List Nat), b.length ≤ f1 → b.length ≤ f2 →
      parseFramesAux f1 b = parseFramesAux f2 b := by
  intro f1
  induction f1 with
  | zero =>
    intro f2 b h1 _
    have hb : b = [] := List.eq_nil_of_length_eq_zero (by omega)
    subst hb
    cases f2 with
    | zero => rfl
    | succ n => rfl
  | succ n ih =>
    intro f2 b h1 h2
    cases f2 with
    | zero =>
      have hb : b = [] := List.eq_nil_of_length_eq_zero (by omega)
      subst hb; rfl
    | succ m =>
      cases hp : parseOneFrame b with
      | none => simp [parseFramesAux, hp]
      | some pr =>
        obtain ⟨mo, rest⟩ := pr
        have hlt := parseOneFrame_rest_lt hp
        simp only [parseFramesAux, hp]
        rw [ih m rest (by omega) (by omega)]

theorem parseFramesAux_nil (n : Nat) : parseFramesAux n [] = ([], []) := by
  cases n <;> rfl

theorem parseFrames_of_none {b : List Nat} (h : parseOneFrame b = none) :
    parseFrames b = ([], b) := by
  unfold parseFrames
  cases hb : b.length with
  | zero => rfl
  | succ n => simp [parseFramesAux, h]

theorem parseFrames_single {b pmsg : List Nat}
    (h : parseOneFrame b = some (some pmsg, [])) :
    parseFrames b = ([pmsg], []) := by
  have hlen : 0 < b.length := by
    have := parseOneFrame_rest_lt h
    simpa using this
  unfold parseFrames
  obtain ⟨n, hn⟩ : ∃ n, b.length = n + 1 := ⟨b.length - 1, by omega⟩
  rw [hn]
  simp [parseFramesAux, h, parseFramesAux_nil]

/-- An exact unmasked text frame `header ++ payload` parses to exactly the
payload with nothing left over. -/
theorem finishFrame_exact {hdr p : List Nat} {f pl hl : Nat}
    (hf : f % 16 = 1) (hhdr : hdr.length = hl) (hpl : p.length = pl) :
    finishFrame (hdr ++ p) f pl hl false = some (some p, []) := by
  have hlen : (hdr ++ p).length = hl + pl := by
    simp [List.length_append, hhdr, hpl]
  simp only [finishFrame, Bool.false_eq_true, if_false, Nat.add_zero]
  rw [if_neg (by omega), if_pos hf, List.drop_left' hhdr, ← hpl, List.take_length,
    show hl + p.length = (hdr ++ p).length by omega, List.drop_length]

/-- A buffer too short for the advertised frame makes the parse loop break. -/
theorem finishFrame_short {buffer : List Nat} {f pl hl : Nat} {m : Bool}
    (h : buffer.length < hl + pl) :
    finishFrame buffer f pl hl m = none := by
  have hk : (if m then 4 else 0) = 4 ∨ (if m then 4 else 0) = 0 := by
    cases m <;> simp
  simp only [finishFrame]
  rw [if_pos]
  rcases hk with hk | hk <;> rw [hk] <;> omega

theorem parseOneFrame_encode_small {p : List Nat} (h : p.length < 126) :
    parseOneFrame (createWebSocketFrame p) = some (some p, []) := by
  have henc : createWebSocketFrame p = [0x81, p.length] ++ p := by
    simp [createWebSocketFrame, h]
  have h128 : p.length % 128 = p.length := Nat.mod_eq_of_lt (by omega)
  have hdiv : p.length / 128 = 0 := Nat.div_eq_of_lt (by omega)
  rw [henc]
  simp only [List.cons_append, List.nil_append, parseOneFrame, h128]
  rw [if_neg (by omega), if_neg (by omega), hdiv]
  show finishFrame ([0x81, p.length] ++ p) 0x81 p.length 2 false = some (some p, [])
  exact finishFrame_exact (by norm_num) (by simp) rfl

theorem parseOneFrame_encode_mid {p : List Nat} (h1 : 126 ≤ p.length)
    (h2 : p.length < 65536) :
    parseOneFrame (createWebSocketFrame p) = some (some p, []) := by
  have henc : createWebSocketFrame p
      = [0x81, 126, p.length / 256 % 256, p.length % 256] ++ p := by
    simp [createWebSocketFrame, show ¬ p.length < 126 by omega, h2]
  rw [henc]
  simp only [List.cons_append, List.nil_append, parseOneFrame]
  rw [if_pos (by norm_num)]
  have hrecon : p.length / 256 % 256 * 256 + p.length % 256 = p.length := by omega
  rw [hrecon]
  show finishFrame ([0x81, 126, p.length / 256 % 256, p.length % 256] ++ p)
      0x81 p.length 4 false = some (some p, [])
  exact finishFrame_exact (by norm_num) (by simp) rfl

theorem parseOneFrame_encode_big {p : List Nat} (h1 : 65536 ≤ p.length)
    (h2 : p.length < 4294967296) :
    parseOneFrame (createWebSocketFrame p) = some (some p, []) := by
  have henc : createWebSocketFrame p
      = [0x81, 127, 0, 0, 0, 0, p.length / 16777216 % 256, p.length / 65536 % 256,
          p.length / 256 % 256, p.length % 256] ++ p := by
    simp [createWebSocketFrame, show ¬ p.length < 126 by omega,
      show ¬ p.length < 65536 by omega]
  rw [henc]
  simp only [List.cons_append, List.nil_append, parseOneFrame]
  rw [if_neg (by norm_num), if_pos (by norm_num)]
  have hrecon : p.length / 16777216 % 256 * 16777216 + p.length / 65536 % 256 * 65536
      + p.length / 256 % 256 * 256 + p.length % 256 = p.length := by omega
  rw [hrecon]
  show finishFrame ([0x81, 127, 0, 0, 0, 0, p.length / 16777216 % 256,
      p.length / 65536 % 256, p.length / 256 % 256, p.length % 256] ++ p)
      0x81 p.length 10 false = some (some p, [])
  exact finishFrame_exact (by norm_num) (by simp) rfl

theorem parseOneFrame_encode {p : List Nat} (h32 : p.length < 4294967296) :
    parseOneFrame (createWebSocketFrame p) = some (some p, []) := by
  by_cases hs : p.length < 126
  · exact parseOneFrame_encode_small hs
  · by_cases hm : p.length < 65536
    · exact parseOneFrame_encode_mid (by omega) hm
    · exact parseOneFrame_encode_big (by omega) h32

theorem parseFrames_encode {p : List Nat} (h32 : p.length < 4294967296) :
    parseFrames (createWebSocketFrame p) = ([p], []) :=
  parseFrames_single (parseOneFrame_encode h32)

/-- On any strict prefix of a single encoded frame the parse loop consumes
nothing: every break path of the source (`offset + 2`, `offset + 4`,
`offset + 10`, `frameEnd` checks) returns before `offset` advances. -/
theorem parseOneFrame_encode_truncated {p : List Nat} (h32 : p.length < 4294967296)
    {i : Nat} (hi : i < (createWebSocketFrame p).length) :
    parseOneFrame ((createWebSocketFrame p).take i) = none := by
  by_cases hs : p.length < 126
  · have henc : createWebSocketFrame p = [0x81, p.length] ++ p := by
      simp [createWebSocketFrame, hs]
    have hlen : (createWebSocketFrame p).length = p.length + 2 := by
      simp [henc]
    rw [henc]
    have hi' : i < p.length + 2 := by rw [hlen] at hi; exact hi
    rcases Nat.lt_or_ge i 2 with hfew | hrest
    · interval_cases i <;> rfl
    · obtain ⟨j, rfl⟩ : ∃ j, i = j + 2 := ⟨i - 2, by omega⟩
      have hj' : j < p.length := by omega
      have htake : (([0x81, p.length] ++ p).take (j+2))
          = 0x81 :: p.length :: p.take j := rfl
      rw [htake]
      have h128 : p.length % 128 = p.length := Nat.mod_eq_of_lt (by omega)
      simp only [parseOneFrame, h128]
      rw [if_neg (by omega), if_neg (by omega)]
      apply finishFrame_short
      simp only [List.length_cons, List.length_take]
      omega
  · by_cases hm : p.length < 65536
    · have henc : createWebSocketFrame p
          = [0x81, 126, p.length / 256 % 256, p.length % 256] ++ p := by
        simp [createWebSocketFrame, hs, hm]
      have hlen : (createWebSocketFrame p).length = p.length + 4 := by
        simp [henc]
      rw [henc]
      have hi' : i < p.length + 4 := by rw [hlen] at hi; exact hi
      rcases Nat.lt_or_ge i 4 with hfew | hrest
      · interval_cases i <;> rfl
      · obtain ⟨j, rfl⟩ : ∃ j, i = j + 4 := ⟨i - 4, by omega⟩
        have hj' : j < p.length := by omega
        have htake : (([0x81, 126, p.length / 256 % 256, p.length % 256] ++ p).take (j+4))
            = 0x81 :: 126 :: (p.length / 256 % 256) :: (p.length % 256) :: p.take j := rfl
        rw [htake]
        simp only [parseOneFrame]
        rw [if_pos (by norm_num)]
        have hrecon : p.length / 256 % 256 * 256 + p.length % 256 = p.length := by omega
        rw [hrecon]
        apply finishFrame_short
        simp only [List.length_cons, List.length_take]
        omega
    · have henc : createWebSocketFrame p
          = [0x81, 127, 0, 0, 0, 0, p.length / 16777216 % 256, p.length / 65536 % 256,
              p.length / 256 % 256, p.length % 256] ++ p := by
        simp [createWebSocketFrame, hs, hm]
      have hlen : (createWebSocketFrame p).length = p.length + 10 := by
        simp [henc]
      rw [henc]
      have hi' : i < p.length + 10 := by rw [hlen] at hi; exact hi
      rcases Nat.lt_or_ge i 10 with hfew | hrest
      · interval_cases i <;> rfl
      · obtain ⟨j, rfl⟩ : ∃ j, i = j + 10 := ⟨i - 10, by omega⟩
        have hj' : j < p.length := by omega
        have htake : (([0x81, 127, 0, 0, 0, 0, p.length / 16777216 % 256,
              p.length / 65536 % 256, p.length / 256 % 256, p.length % 256] ++ p).take (j+10))
            = 0x81 :: 127 :: 0 :: 0 :: 0 :: 0 :: (p.length / 16777216 % 256)
              :: (p.length / 65536 % 256) :: (p.length / 256 % 256) :: (p.length % 256)
              :: p.take j := rfl
        rw [htake]
        simp only [parseOneFrame]
        rw [if_neg (by norm_num), if_pos (by norm_num)]
        have hrecon : p.length / 16777216 % 256 * 16777216 + p.length / 65536 % 256 * 65536
            + p.length / 256 % 256 * 256 + p.length % 256 = p.length := by omega
        rw [hrecon]
        apply finishFrame_short
        simp only [List.length_cons, List.length_take]
        omega

/-- A 127-marked unmasked frame whose extended-length bytes 6–9 encode the
payload length parses to exactly the payload, for arbitrary bytes 2–5
(which the source never reads). -/
theorem parseOneFrame_ext64 {p : List Nat} (h32 : p.length < 4294967296)
    (e0 e1 e2 e3 : Nat) :
    parseOneFrame (0x81 :: 127 :: e0 :: e1 :: e2 :: e3 ::
        (p.length / 16777216 % 256) :: (p.length / 65536 % 256) ::
        (p.length / 256 % 256) :: (p.length % 256) :: p) = some (some p, []) := by
  simp only [parseOneFrame]
  rw [if_neg (by norm_num), if_pos (by norm_num)]
  have hrecon : p.length / 16777216 % 256 * 16777216 + p.length / 65536 % 256 * 65536
      + p.length / 256 % 256 * 256 + p.length % 256 = p.length := by omega
  rw [hrecon]
  show finishFrame ([0x81, 127, e0, e1, e2, e3, p.length / 16777216 % 256,
      p.length / 65536 % 256, p.length / 256 % 256, p.length % 256] ++ p)
      0x81 p.length 10 false = some (some p, [])
  exact finishFrame_exact (by norm_num) (by simp) rfl

/-- **C2**: For every payload (any byte list a Node `Buffer` can hold, i.e. of
length below `2^32` — in particular sizes 0, 125, 126, 65535 and 65536),
`parseFrames (createWebSocketFrame payload)` yields exactly the single message
payload with empty remainder; and decoding is resumable: splitting the frame
bytes at any position `i`, decoding the first part, then decoding its
remainder concatenated with the second part, produces in total exactly the
same single message and an empty final remainder. -/
theorem frame_codec_roundtrip_resumable (p : List Nat)
    (h32 : p.length < 4294967296) :
    parseFrames (createWebSocketFrame p) = ([p], []) ∧
    ∀ i ≤ (createWebSocketFrame p).length,
      (parseFrames ((createWebSocketFrame p).take i)).1
        ++ (parseFrames ((parseFrames ((createWebSocketFrame p).take i)).2
            ++ (createWebSocketFrame p).drop i)).1 = [p]
      ∧ (parseFrames ((parseFrames ((createWebSocketFrame p).take i)).2
            ++ (createWebSocketFrame p).drop i)).2 = [] := by
  refine ⟨parseFrames_encode h32, ?_⟩
  intro i hle
  rcases Nat.lt_or_ge i (createWebSocketFrame p).length with hlt | hge
  · have h1 : parseFrames ((createWebSocketFrame p).take i)
        = ([], (createWebSocketFrame p).take i) :=
      parseFrames_of_none (parseOneFrame_encode_truncated h32 hlt)
    rw [h1]
    simp only [List.take_append_drop]
    rw [parseFrames_encode h32]
    simp
  · have hieq : i = (createWebSocketFrame p).length := le_antisymm hle hge
    subst hieq
    rw [List.take_length, List.drop_length, parseFrames_encode h32]
    exact ⟨rfl, rfl⟩

theorem frame_codec_roundtrip_resumable_witness :
    ([(1 : Nat), 2, 3].length < 4294967296) ∧
    (parseFrames (createWebSocketFrame [1, 2, 3]) = ([[1, 2, 3]], []) ∧
     ∀ i ≤ (createWebSocketFrame [1, 2, 3]).length,
       (parseFrames ((createWebSocketFrame [1, 2, 3]).take i)).1
         ++ (parseFrames ((parseFrames ((createWebSocketFrame [1, 2, 3]).take i)).2
             ++ (createWebSocketFrame [1, 2, 3]).drop i)).1 = [[1, 2, 3]]
       ∧ (parseFrames ((parseFrames ((createWebSocketFrame [1, 2, 3]).take i)).2
             ++ (createWebSocketFrame [1, 2, 3]).drop i)).2 = []) :=
  ⟨by decide, frame_codec_roundtrip_resumable [1, 2, 3] (by decide)⟩

/-- **C10**: in `parseFrames`, a frame whose 7-bit inline length field equals
127 takes its payload length from header bytes 6–9 only (the low 32 bits of
the 8-byte extended length); bytes 2–5 are never read, so the result does not
depend on them, and a frame advertising a 64-bit length `L ≥ 2^32` is parsed
as if its length were `L % 2^32`. -/
theorem extended_length_reads_low32_only (e0 e1 e2 e3 : Nat) (p : List Nat)
    (h32 : p.length < 4294967296)
    (h0 : e0 < 256) (h1 : e1 < 256) (h2 : e2 < 256) (h3 : e3 < 256) :
    parseFrames (0x81 :: 127 :: e0 :: e1 :: e2 :: e3 ::
        (p.length / 16777216 % 256) :: (p.length / 65536 % 256) ::
        (p.length / 256 % 256) :: (p.length % 256) :: p) = ([p], [])
    ∧ (e0 * 72057594037927936 + e1 * 281474976710656 + e2 * 1099511627776
        + e3 * 4294967296 + p.length) % 4294967296 = p.length := by
  refine ⟨parseFrames_single (parseOneFrame_ext64 h32 e0 e1 e2 e3), ?_⟩
  omega

theorem extended_length_reads_low32_only_witness :
    ([(66 : Nat)].length < 4294967296 ∧ (0 : Nat) < 256 ∧ (1 : Nat) < 256) ∧
    (parseFrames (0x81 :: 127 :: 0 :: 0 :: 0 :: 1 ::
        ([(66 : Nat)].length / 16777216 % 256) :: ([(66 : Nat)].length / 65536 % 256) ::
        ([(66 : Nat)].length / 256 % 256) :: ([(66 : Nat)].length % 256) :: [66])
        = ([[66]], [])
      ∧ (0 * 72057594037927936 + 0 * 281474976710656 + 0 * 1099511627776
          + 1 * 4294967296 + [(66 : Nat)].length) % 4294967296 = [(66 : Nat)].length) :=
  ⟨by decide,
    extended_length_reads_low32_only 0 0 0 1 [66] (by decide) (by decide) (by decide)
      (by decide) (by decide)⟩

/-! ## Room broker (`src/server.js`, lines 31–50 and 149–190)

The two JS `Map`s (`rooms`, `clients`) are modelled as insertion-ordered
association lists, matching `Map` iteration order: `set` of an existing key
updates it in place, `set` of a new key appends; the member `Set` of a room
is an insertion-ordered duplicate-free list, `add` appending when absent.
`delete` is modelled by `filter`, which on the duplicate-free collections a
JS `Map`/`Set` maintains is exactly single-entry removal. -/

/-- A registered connection's broker-visible state (src/server.js line 147):
its current room, if any.  (The inbound byte accumulator is the frame codec's
concern and plays no role in the broker claims.) -/
structure ClientEntry where
  roomId : Option String
  deriving DecidableEq

/-- The broker's shared state: the `rooms` and `clients` registries
(src/server.js lines 31–32). -/
structure ServerState where
  rooms : List (String × List String)
  clients : List (String × ClientEntry)
  deriving DecidableEq

/-- JS `Map.get`. -/
def mapGet {α : Type} : List (String × α) → String → Option α
  | [], _ => none
  | e :: t, k => if e.1 == k then some e.2 else mapGet t k

/-- JS `Map.set`: updates an existing key in place, appends a new key. -/
def mapSet {α : Type} : List (String × α) → String → α → List (String × α)
  | [], k, v => [(k, v)]
  | e :: t, k, v => if e.1 == k then (k, v) :: t else e :: mapSet t k v

/-- JS `Map.delete` (single-entry removal on a duplicate-free key list). -/
def mapDelete {α : Type} (m : List (String × α)) (k : String) : List (String × α) :=
  m.filter (fun e => e.1 != k)

/-- JS `Set.add`: appends when absent. -/
def setAdd (s : List String) (x : String) : List String :=
  if x ∈ s then s else s ++ [x]

/-- JS `Set.delete` (single-entry removal on a duplicate-free list). -/
def setDelete (s : List String) (x : String) : List String :=
  s.filter (fun y => y != x)

/-- The payload of a relayed `signal` message.  The broker forwards the parsed
message verbatim (src/server.js line 171) and never inspects these fields;
`toField` is carried so that claim C6's "regardless of the `to` field" is
expressible. -/
structure SignalData where
  fromField : Option String
  toField : Option String
  body : String
  deriving DecidableEq

/-- An inbound application message after JSON parsing (src/server.js lines
157–172): `join`, `signal`, or anything else (ignored). -/
inductive InMsg
  | join (roomId : String)
  | signal (d : SignalData)
  | other
  deriving DecidableEq

/-- An outbound application message (src/server.js lines 166–167, 171, 186). -/
inductive OutMsg
  | joined (clientId : String) (peers : List String)
  | peerJoined (clientId : String)
  | peerLeft (clientId : String)
  | signal (d : SignalData)
  deriving DecidableEq

/-- `sendMessage` (src/server.js lines 44–50): delivery happens only when the
recipient is still registered; we record the delivered payload in place of
the socket write. -/
def sendMessage (st : ServerState) (clientId : String) (payload : OutMsg) :
    List (String × OutMsg) :=
  match mapGet st.clients clientId with
  | none => []
  | some _ => [(clientId, payload)]

/-- The loop body of `broadcastToRoom` (src/server.js lines 37–41). -/
def broadcastList (st : ServerState) (senderId : String) (payload : OutMsg) :
    List String → List (String × OutMsg)
  | [] => []
  | c :: rest =>
    (if c != senderId then sendMessage st c payload else [])
      ++ broadcastList st senderId payload rest

/-- `broadcastToRoom` (src/server.js lines 34–42): send to every member of the
room except the sender; missing room means no sends. -/
def broadcastToRoom (st : ServerState) (roomId senderId : String)
    (payload : OutMsg) : List (String × OutMsg) :=
  match mapGet st.rooms roomId with
  | none => []
  | some room => broadcastList st senderId payload room

/-- One iteration of the message loop of the `data` handler
(src/server.js lines 155–176), after JSON parsing: `join` lazily creates the
room, adds the sender, replies `joined` to the sender alone and broadcasts
`peer-joined`; `signal` from a joined connection fans out verbatim; anything
else — including `signal` before any `join` — is ignored.  The handler runs
only for registered connections (the guard at line 151). -/
def handleMessage (st : ServerState) (clientId : String) :
    InMsg → ServerState × List (String × OutMsg)
  | .join roomId =>
    match mapGet st.clients clientId with
    | none => (st, [])
    | some _ =>
      let rooms1 := if (mapGet st.rooms roomId).isSome then st.rooms
        else mapSet st.rooms roomId []
      let room := (mapGet rooms1 roomId).getD []
      let room1 := setAdd room clientId
      let st1 : ServerState :=
        { rooms := mapSet rooms1 roomId room1,
          clients := mapSet st.clients clientId ⟨some roomId⟩ }
      (st1, sendMessage st1 clientId (.joined clientId room1)
        ++ broadcastToRoom st1 roomId clientId (.peerJoined clientId))
  | .signal d =>
    match mapGet st.clients clientId with
    | none => (st, [])
    | some entry =>
      match entry.roomId with
      | none => (st, [])
      | some roomId => (st, broadcastToRoom st roomId clientId (.signal d))
  | .other => (st, [])

/-- The `close` handler (src/server.js lines 179–190): a second close finds no
registry entry and returns immediately. -/
def handleClose (st : ServerState) (clientId : String) :
    ServerState × List (String × OutMsg) :=
  match mapGet st.clients clientId with
  | none => (st, [])
  | some entry =>
    match entry.roomId with
    | some roomId =>
      match mapGet st.rooms roomId with
      | some room =>
        let room1 := setDelete room clientId
        let st1 : ServerState :=
          { rooms := mapSet st.rooms roomId room1, clients := st.clients }
        let sends := broadcastToRoom st1 roomId clientId (.peerLeft clientId)
        let rooms2 := if room1.length = 0 then mapDelete st1.rooms roomId else st1.rooms
        ({ rooms := rooms2, clients := mapDelete st.clients clientId }, sends)
      | none => ({ st with clients := mapDelete st.clients clientId }, [])
    | none => ({ st with clients := mapDelete st.clients clientId }, [])

/-- The member list the `join` branch reads after lazy creation. -/
def roomMembers (st : ServerState) (roomId : String) : List String :=
  (mapGet st.rooms roomId).getD []

theorem mapGet_mapSet_self {α : Type} (m : List (String × α)) (k : String) (v : α) :
    mapGet (mapSet m k v) k = some v := by
  induction m with
  | nil => simp [mapSet, mapGet]
  | cons e t ih =>
    by_cases he : e.1 == k
    · simp [mapSet, he, mapGet]
    · simp [mapSet, he, mapGet, ih]

theorem mapGet_mapSet_ne {α : Type} (m : List (String × α)) {k k' : String}
    (v : α) (h : k' ≠ k) : mapGet (mapSet m k v) k' = mapGet m k' := by
  have hkk' : (k == k') = false := beq_eq_false_iff_ne.mpr (Ne.symm h)
  induction m with
  | nil => simp [mapSet, mapGet, hkk']
  | cons e t ih =>
    by_cases he : e.1 == k
    · have he' : e.1 = k := by simpa using he
      simp [mapSet, he, mapGet, hkk', he']
    · simp [mapSet, he, mapGet, ih]

theorem mapGet_mapDelete_self {α : Type} (m : List (String × α)) (k : String) :
    mapGet (mapDelete m k) k = none := by
  induction m with
  | nil => rfl
  | cons e t ih =>
    by_cases he : e.1 == k
    · simpa [mapDelete, List.filter_cons, bne, he] using ih
    · simpa [mapDelete, List.filter_cons, bne, he, mapGet] using ih

theorem mapGet_mapDelete_ne {α : Type} (m : List (String × α)) {k k' : String}
    (h : k' ≠ k) : mapGet (mapDelete m k) k' = mapGet m k' := by
  induction m with
  | nil => rfl
  | cons e t ih =>
    simp only [mapDelete, bne] at ih ⊢
    by_cases he : e.1 == k
    · have he' : e.1 = k := by simpa using he
      have hek' : (e.1 == k') = false := by
        rw [he']; exact beq_eq_false_iff_ne.mpr (Ne.symm h)
      simp [List.filter_cons, he, mapGet, hek', ih]
    · simp [List.filter_cons, he, mapGet, ih]

theorem sendMessage_reg {st : ServerState} {clientId : String} (payload : OutMsg)
    (h : (mapGet st.clients clientId).isSome) :
    sendMessage st clientId payload = [(clientId, payload)] := by
  rcases hs : mapGet st.clients clientId with _ | e
  · rw [hs] at h; simp at h
  · unfold sendMessage; rw [hs]

theorem broadcastList_eq_map {st : ServerState} {senderId : String}
    (payload : OutMsg) {room : List String}
    (hreg : ∀ c ∈ room, c ≠ senderId → (mapGet st.clients c).isSome) :
    broadcastList st senderId payload room
      = (room.filter (fun c => c != senderId)).map (fun c => (c, payload)) := by
  induction room with
  | nil => rfl
  | cons c rest ih =>
    have hrest : ∀ x ∈ rest, x ≠ senderId → (mapGet st.clients x).isSome :=
      fun x hx => hreg x (List.mem_cons_of_mem _ hx)
    by_cases hc : c = senderId
    · have hcs : (c != senderId) = false := by simp [bne, hc]
      simp [broadcastList, List.filter_cons, hcs, ih hrest]
    · have hcs : (c != senderId) = true := by simpa [bne] using hc
      have hcreg := hreg c (List.mem_cons_self c rest) hc
      simp [broadcastList, List.filter_cons, hcs, sendMessage_reg payload hcreg, ih hrest]

/-- **C6**: a `signal` from a connection that has joined a room is forwarded
verbatim (the whole parsed message, `to` field and all — `d` ranges over
every payload, so the result does not depend on `toField`'s value or absence)
to every current member of that room except the sender, and the broker state
is unchanged; a `signal` from a connection with no room is silently ignored:
no sends and no state change. -/
theorem signal_relay_semantics (st : ServerState) (clientId roomId : String)
    (d : SignalData) (entry : ClientEntry)
    (hreg : mapGet st.clients clientId = some entry)
    (hroomId : entry.roomId = some roomId)
    (room : List String) (hr : mapGet st.rooms roomId = some room)
    (hregM : ∀ c ∈ room, c ≠ clientId → (mapGet st.clients c).isSome) :
    handleMessage st clientId (.signal d)
      = (st, (room.filter (fun c => c != clientId)).map (fun c => (c, OutMsg.signal d)))
    ∧ ∀ (st' : ServerState) (clientId' : String) (d' : SignalData) (entry' : ClientEntry),
        mapGet st'.clients clientId' = some entry' → entry'.roomId = none →
          handleMessage st' clientId' (.signal d') = (st', []) := by
  constructor
  · simp only [handleMessage, hreg, hroomId, broadcastToRoom, hr]
    rw [broadcastList_eq_map _ hregM]
  · intro st' cid' d' e' hreg' hnone'
    simp only [handleMessage, hreg', hnone']

theorem signal_relay_semantics_witness :
    (mapGet ([("A", ⟨some "R"⟩), ("B", ⟨some "R"⟩), ("C", ⟨some "R"⟩)] :
        List (String × ClientEntry)) "A" = some ⟨some "R"⟩
      ∧ (⟨some "R"⟩ : ClientEntry).roomId = some "R"
      ∧ mapGet ([("R", ["A", "B", "C"])] : List (String × List String)) "R"
          = some ["A", "B", "C"])
    ∧ (handleMessage
        ⟨[("R", ["A", "B", "C"])],
         [("A", ⟨some "R"⟩), ("B", ⟨some "R"⟩), ("C", ⟨some "R"⟩)]⟩
        "A" (.signal ⟨some "A", some "B", "offer-sdp"⟩)
      = (⟨[("R", ["A", "B", "C"])],
          [("A", ⟨some "R"⟩), ("B", ⟨some "R"⟩), ("C", ⟨some "R"⟩)]⟩,
         [("B", OutMsg.signal ⟨some "A", some "B", "offer-sdp"⟩),
          ("C", OutMsg.signal ⟨some "A", some "B", "offer-sdp"⟩)])
      ∧ ∀ (st' : ServerState) (clientId' : String) (d' : SignalData) (entry' : ClientEntry),
          mapGet st'.clients clientId' = some entry' → entry'.roomId = none →
            handleMessage st' clientId' (.signal d') = (st', [])) :=
  ⟨⟨by decide, rfl, by decide⟩,
    signal_relay_semantics
      ⟨[("R", ["A", "B", "C"])],
       [("A", ⟨some "R"⟩), ("B", ⟨some "R"⟩), ("C", ⟨some "R"⟩)]⟩
      "A" "R" ⟨some "A", some "B", "offer-sdp"⟩ ⟨some "R"⟩ (by decide) rfl
      ["A", "B", "C"] (by decide) (by decide)⟩

theorem broadcastToRoom_eq {st : ServerState} {roomId senderId : String}
    (payload : OutMsg) {room : List String}
    (hr : mapGet st.rooms roomId = some room)
    (hreg : ∀ c ∈ room, c ≠ senderId → (mapGet st.clients c).isSome) :
    broadcastToRoom st roomId senderId payload
      = (room.filter (fun c => c != senderId)).map (fun c => (c, payload)) := by
  unfold broadcastToRoom
  rw [hr]
  exact broadcastList_eq_map payload hreg

/-- **C7**: closing a connection that had joined room `R` removes it from
`R`'s member set, relays `peer-left` to every remaining member, deletes the
room exactly when the member set becomes empty, and always removes the
connection from the registry; a second close of the same connection changes
no state and sends nothing. -/
theorem close_semantics (st : ServerState) (clientId roomId : String)
    (entry : ClientEntry) (hreg : mapGet st.clients clientId = some entry)
    (hroomId : entry.roomId = some roomId)
    (room : List String) (hr : mapGet st.rooms roomId = some room)
    (hregM : ∀ c ∈ room, c ≠ clientId → (mapGet st.clients c).isSome) :
    mapGet (handleClose st clientId).1.clients clientId = none
    ∧ (handleClose st clientId).2
        = (room.filter (fun c => c != clientId)).map
            (fun c => (c, OutMsg.peerLeft clientId))
    ∧ (room.filter (fun c => c != clientId) = [] →
        mapGet (handleClose st clientId).1.rooms roomId = none)
    ∧ (room.filter (fun c => c != clientId) ≠ [] →
        mapGet (handleClose st clientId).1.rooms roomId
          = some (room.filter (fun c => c != clientId)))
    ∧ handleClose (handleClose st clientId).1 clientId
        = ((handleClose st clientId).1, []) := by
  have hsub : ∀ c ∈ room.filter (fun c => c != clientId), c ≠ clientId →
      (mapGet st.clients c).isSome :=
    fun c hc hne => hregM c (List.mem_of_mem_filter hc) hne
  have hfilt : (room.filter (fun c => c != clientId)).filter (fun c => c != clientId)
      = room.filter (fun c => c != clientId) := by
    rw [List.filter_filter]
    simp
  have hb : broadcastToRoom
      { rooms := mapSet st.rooms roomId (room.filter (fun c => c != clientId)),
        clients := st.clients } roomId clientId (OutMsg.peerLeft clientId)
      = (room.filter (fun c => c != clientId)).map
          (fun c => (c, OutMsg.peerLeft clientId)) := by
    unfold broadcastToRoom
    rw [mapGet_mapSet_self]
    show broadcastList
        { rooms := mapSet st.rooms roomId (room.filter (fun c => c != clientId)),
          clients := st.clients } clientId (OutMsg.peerLeft clientId)
        (room.filter (fun c => c != clientId)) = _
    rw [@broadcastList_eq_map
        ⟨mapSet st.rooms roomId (room.filter (fun c => c != clientId)), st.clients⟩
        clientId (OutMsg.peerLeft clientId) (room.filter (fun c => c != clientId)) hsub,
      hfilt]
  simp only [handleClose, hreg, hroomId, hr, setDelete, hb]
  refine ⟨?_, trivial, ?_, ?_, ?_⟩
  · exact mapGet_mapDelete_self st.clients clientId
  · intro hempty
    rw [if_pos (by simp [hempty])]
    exact mapGet_mapDelete_self _ roomId
  · intro hne
    rw [if_neg (by simpa using hne)]
    exact mapGet_mapSet_self st.rooms roomId _
  · simp only [handleClose, mapGet_mapDelete_self]

theorem close_semantics_witness :
    (mapGet ([("A", ⟨some "R"⟩), ("B", ⟨some "R"⟩)] : List (String × ClientEntry)) "A"
        = some ⟨some "R"⟩
      ∧ (⟨some "R"⟩ : ClientEntry).roomId = some "R"
      ∧ mapGet ([("R", ["A", "B"])] : List (String × List String)) "R" = some ["A", "B"])
    ∧ (mapGet (handleClose ⟨[("R", ["A", "B"])],
          [("A", ⟨some "R"⟩), ("B", ⟨some "R"⟩)]⟩ "A").1.clients "A" = none
      ∧ (handleClose ⟨[("R", ["A", "B"])],
          [("A", ⟨some "R"⟩), ("B", ⟨some "R"⟩)]⟩ "A").2
          = [("B", OutMsg.peerLeft "A")]
      ∧ (["A", "B"].filter (fun c => c != "A") = [] →
          mapGet (handleClose ⟨[("R", ["A", "B"])],
            [("A", ⟨some "R"⟩), ("B", ⟨some "R"⟩)]⟩ "A").1.rooms "R" = none)
      ∧ (["A", "B"].filter (fun c => c != "A") ≠ [] →
          mapGet (handleClose ⟨[("R", ["A", "B"])],
            [("A", ⟨some "R"⟩), ("B", ⟨some "R"⟩)]⟩ "A").1.rooms "R"
            = some (["A", "B"].filter (fun c => c != "A")))
      ∧ handleClose (handleClose ⟨[("R", ["A", "B"])],
            [("A", ⟨some "R"⟩), ("B", ⟨some "R"⟩)]⟩ "A").1 "A"
          = ((handleClose ⟨[("R", ["A", "B"])],
              [("A", ⟨some "R"⟩), ("B", ⟨some "R"⟩)]⟩ "A").1, [])) :=
  ⟨⟨by decide, rfl, by decide⟩,
    close_semantics ⟨[("R", ["A", "B"])], [("A", ⟨some "R"⟩), ("B", ⟨some "R"⟩)]⟩
      "A" "R" ⟨some "R"⟩ (by decide) rfl ["A", "B"] (by decide) (by decide)⟩

/-- **C5**: a `join{roomId}` from a registered connection with no current
room creates the room if absent, appends the connection's id to its member
set, sends exactly one `joined{clientId, peers}` to the joiner alone —
`peers` being the member list at that instant, joiner included — and sends
`peer-joined{clientId}` to exactly the other current members; in particular
A then B joining room R gives A `joined{peers:[A]}` then `peer-joined{B}`,
and gives B `joined{peers:[A,B]}`. -/
theorem join_semantics (st : ServerState) (clientId roomId : String)
    (entry : ClientEntry) (hreg : mapGet st.clients clientId = some entry)
    (_hfree : entry.roomId = none)
    (hnotin : clientId ∉ roomMembers st roomId)
    (hregM : ∀ c ∈ roomMembers st roomId, (mapGet st.clients c).isSome) :
    mapGet (handleMessage st clientId (.join roomId)).1.rooms roomId
        = some (roomMembers st roomId ++ [clientId])
    ∧ mapGet (handleMessage st clientId (.join roomId)).1.clients clientId
        = some ⟨some roomId⟩
    ∧ (handleMessage st clientId (.join roomId)).2
        = (clientId, OutMsg.joined clientId (roomMembers st roomId ++ [clientId]))
          :: (roomMembers st roomId).map (fun m => (m, OutMsg.peerJoined clientId))
    ∧ ((let st0 : ServerState := ⟨[], [("A", ⟨none⟩), ("B", ⟨none⟩)]⟩
        let r1 := handleMessage st0 "A" (.join "R")
        let r2 := handleMessage r1.1 "B" (.join "R")
        (r1.2 ++ r2.2).filter (fun e => e.1 == "A")
            = [("A", OutMsg.joined "A" ["A"]), ("A", OutMsg.peerJoined "B")]
        ∧ (r1.2 ++ r2.2).filter (fun e => e.1 == "B")
            = [("B", OutMsg.joined "B" ["A", "B"])])) := by
  have hroom : (mapGet (if (mapGet st.rooms roomId).isSome then st.rooms
      else mapSet st.rooms roomId []) roomId).getD [] = roomMembers st roomId := by
    rcases hx : mapGet st.rooms roomId with _ | r
    · simp [hx, mapGet_mapSet_self, roomMembers]
    · simp [hx, roomMembers]
  have hadd : setAdd (roomMembers st roomId) clientId
      = roomMembers st roomId ++ [clientId] := by
    unfold setAdd; rw [if_neg hnotin]
  simp only [handleMessage, hreg, hroom, hadd]
  refine ⟨mapGet_mapSet_self _ _ _, mapGet_mapSet_self _ _ _, ?_, by decide⟩
  have hregM' : ∀ c ∈ roomMembers st roomId ++ [clientId], c ≠ clientId →
      (mapGet (mapSet st.clients clientId ⟨some roomId⟩) c).isSome := by
    intro c hc hne
    rcases List.mem_append.1 hc with hcM | hcSelf
    · rw [mapGet_mapSet_ne _ _ hne]
      exact hregM c hcM
    · exact absurd (by simpa using hcSelf) hne
  have hbcast := @broadcastToRoom_eq
    ⟨mapSet (if (mapGet st.rooms roomId).isSome then st.rooms
        else mapSet st.rooms roomId []) roomId (roomMembers st roomId ++ [clientId]),
      mapSet st.clients clientId ⟨some roomId⟩⟩
    roomId clientId (OutMsg.peerJoined clientId)
    (roomMembers st roomId ++ [clientId])
    (mapGet_mapSet_self _ _ _) hregM'
  have hfilt : (roomMembers st roomId ++ [clientId]).filter (fun c => c != clientId)
      = roomMembers st roomId := by
    rw [List.filter_append]
    have h1 : (roomMembers st roomId).filter (fun c => c != clientId)
        = roomMembers st roomId := by
      apply List.filter_eq_self.mpr
      intro a ha
      have hne : a ≠ clientId := fun hh => hnotin (hh ▸ ha)
      simpa [bne] using hne
    have h2 : ([clientId].filter (fun c => c != clientId)) = [] := by simp
    rw [h1, h2, List.append_nil]
  rw [hfilt] at hbcast
  have hsend : sendMessage
      ⟨mapSet (if (mapGet st.rooms roomId).isSome then st.rooms
          else mapSet st.rooms roomId []) roomId (roomMembers st roomId ++ [clientId]),
        mapSet st.clients clientId ⟨some roomId⟩⟩ clientId
      (OutMsg.joined clientId (roomMembers st roomId ++ [clientId]))
      = [(clientId, OutMsg.joined clientId (roomMembers st roomId ++ [clientId]))] := by
    apply sendMessage_reg
    show (mapGet (mapSet st.clients clientId ⟨some roomId⟩) clientId).isSome
    rw [mapGet_mapSet_self]
    rfl
  rw [hsend, hbcast]
  rfl

theorem join_semantics_witness :
    (mapGet ([("A", ⟨some "R"⟩), ("B", ⟨none⟩)] : List (String × ClientEntry)) "B"
        = some ⟨none⟩
      ∧ (⟨none⟩ : ClientEntry).roomId = none
      ∧ "B" ∉ roomMembers ⟨[("R", ["A"])], [("A", ⟨some "R"⟩), ("B", ⟨none⟩)]⟩ "R")
    ∧ (mapGet (handleMessage ⟨[("R", ["A"])], [("A", ⟨some "R"⟩), ("B", ⟨none⟩)]⟩
          "B" (.join "R")).1.rooms "R"
        = some (roomMembers ⟨[("R", ["A"])], [("A", ⟨some "R"⟩), ("B", ⟨none⟩)]⟩ "R" ++ ["B"])
      ∧ mapGet (handleMessage ⟨[("R", ["A"])], [("A", ⟨some "R"⟩), ("B", ⟨none⟩)]⟩
          "B" (.join "R")).1.clients "B" = some ⟨some "R"⟩
      ∧ (handleMessage ⟨[("R", ["A"])], [("A", ⟨some "R"⟩), ("B", ⟨none⟩)]⟩
          "B" (.join "R")).2
          = ("B", OutMsg.joined "B"
              (roomMembers ⟨[("R", ["A"])], [("A", ⟨some "R"⟩), ("B", ⟨none⟩)]⟩ "R" ++ ["B"]))
            :: (roomMembers ⟨[("R", ["A"])], [("A", ⟨some "R"⟩), ("B", ⟨none⟩)]⟩ "R").map
                (fun m => (m, OutMsg.peerJoined "B"))
      ∧ ((let st0 : ServerState := ⟨[], [("A", ⟨none⟩), ("B", ⟨none⟩)]⟩
          let r1 := handleMessage st0 "A" (.join "R")
          let r2 := handleMessage r1.1 "B" (.join "R")
          (r1.2 ++ r2.2).filter (fun e => e.1 == "A")
              = [("A", OutMsg.joined "A" ["A"]), ("A", OutMsg.peerJoined "B")]
          ∧ (r1.2 ++ r2.2).filter (fun e => e.1 == "B")
              = [("B", OutMsg.joined "B" ["A", "B"])]))) :=
  ⟨⟨by decide, rfl, by decide⟩,
    join_semantics ⟨[("R", ["A"])], [("A", ⟨some "R"⟩), ("B", ⟨none⟩)]⟩ "B" "R"
      ⟨none⟩ (by decide) rfl (by decide) (by decide)⟩

/-- **C8**: a connection already in room `R` sending `join{S}`: when `S = R`
the re-join is idempotent on broker state — `R`'s member set and the
connection's room field are unchanged; when `S ≠ R` the room field becomes
`S` and the id is appended to `S`'s member set, while `R`'s member set still
contains the id (only disconnect removes it). -/
theorem rejoin_semantics (st : ServerState) (clientId R S : String)
    (entry : ClientEntry) (hreg : mapGet st.clients clientId = some entry)
    (hR : entry.roomId = some R)
    (roomR : List String) (hr : mapGet st.rooms R = some roomR)
    (hmem : clientId ∈ roomR)
    (hnotinS : S ≠ R → clientId ∉ roomMembers st S) :
    (S = R →
      mapGet (handleMessage st clientId (.join S)).1.rooms R = some roomR
      ∧ mapGet (handleMessage st clientId (.join S)).1.clients clientId = some entry)
    ∧ (S ≠ R →
      mapGet (handleMessage st clientId (.join S)).1.clients clientId = some ⟨some S⟩
      ∧ mapGet (handleMessage st clientId (.join S)).1.rooms S
          = some (roomMembers st S ++ [clientId])
      ∧ mapGet (handleMessage st clientId (.join S)).1.rooms R = some roomR
      ∧ clientId ∈ roomR) := by
  constructor
  · intro hSR
    subst hSR
    obtain ⟨rid⟩ := entry
    have hrid : rid = some S := by simpa using hR
    subst hrid
    have hro : (mapGet st.rooms S).isSome = true := by rw [hr]; rfl
    have hadd : setAdd roomR clientId = roomR := by
      unfold setAdd; rw [if_pos hmem]
    simp only [handleMessage, hreg]
    rw [if_pos hro]
    simp only [hr, Option.getD_some, hadd]
    exact ⟨mapGet_mapSet_self _ _ _, mapGet_mapSet_self _ _ _⟩
  · intro hSR
    have hnS := hnotinS hSR
    have haddS : setAdd (roomMembers st S) clientId
        = roomMembers st S ++ [clientId] := by
      unfold setAdd; rw [if_neg hnS]
    have hroomS : (mapGet (if (mapGet st.rooms S).isSome then st.rooms
        else mapSet st.rooms S []) S).getD [] = roomMembers st S := by
      rcases hx : mapGet st.rooms S with _ | r
      · simp [hx, mapGet_mapSet_self, roomMembers]
      · simp [hx, roomMembers]
    simp only [handleMessage, hreg, hroomS, haddS]
    refine ⟨mapGet_mapSet_self _ _ _, mapGet_mapSet_self _ _ _, ?_, hmem⟩
    rw [mapGet_mapSet_ne _ _ (Ne.symm hSR)]
    rcases hx : mapGet st.rooms S with _ | r
    · rw [show (if (none : Option (List String)).isSome = true then st.rooms
          else mapSet st.rooms S []) = mapSet st.rooms S [] from rfl]
      rw [mapGet_mapSet_ne _ _ (Ne.symm hSR)]
      exact hr
    · rw [show (if (some r).isSome = true then st.rooms
          else mapSet st.rooms S []) = st.rooms from rfl]
      exact hr

theorem rejoin_semantics_witness :
    (mapGet ([("X", ⟨some "R"⟩)] : List (String × ClientEntry)) "X" = some ⟨some "R"⟩
      ∧ (⟨some "R"⟩ : ClientEntry).roomId = some "R"
      ∧ mapGet ([("R", ["X"])] : List (String × List String)) "R" = some ["X"]
      ∧ "X" ∈ ["X"])
    ∧ (("S" = "R" →
        mapGet (handleMessage ⟨[("R", ["X"])], [("X", ⟨some "R"⟩)]⟩
            "X" (.join "S")).1.rooms "R" = some ["X"]
        ∧ mapGet (handleMessage ⟨[("R", ["X"])], [("X", ⟨some "R"⟩)]⟩
            "X" (.join "S")).1.clients "X" = some ⟨some "R"⟩)
      ∧ ("S" ≠ "R" →
        mapGet (handleMessage ⟨[("R", ["X"])], [("X", ⟨some "R"⟩)]⟩
            "X" (.join "S")).1.clients "X" = some ⟨some "S"⟩
        ∧ mapGet (handleMessage ⟨[("R", ["X"])], [("X", ⟨some "R"⟩)]⟩
            "X" (.join "S")).1.rooms "S"
            = some (roomMembers ⟨[("R", ["X"])], [("X", ⟨some "R"⟩)]⟩ "S" ++ ["X"])
        ∧ mapGet (handleMessage ⟨[("R", ["X"])], [("X", ⟨some "R"⟩)]⟩
            "X" (.join "S")).1.rooms "R" = some ["X"]
        ∧ "X" ∈ ["X"])) :=
  ⟨⟨by decide, rfl, by decide, by decide⟩,
    rejoin_semantics ⟨[("R", ["X"])], [("X", ⟨some "R"⟩)]⟩ "X" "R" "S"
      ⟨some "R"⟩ (by decide) rfl ["X"] (by decide) (by decide)
      (fun _ => by decide)⟩

/-! ## Perfect-negotiation state machine (`src/public/app.js`, lines 122–208
and 311–324)

The external media engine (`RTCPeerConnection`) is opaque: the embedding
records the engine calls a handler issues and the signals it sends, and takes
the engine-reported `signalingState` string as an input.  SDP and ICE
payloads are opaque strings the core never inspects. -/

/-- The per-peer negotiation flags (src/public/app.js lines 130–136). -/
structure Meta where
  polite : Bool
  makingOffer : Bool
  ignoreOffer : Bool
  isSettingRemoteAnswerPending : Bool
  deriving DecidableEq

/-- Role assignment (src/public/app.js line 129): polite iff the local client
id compares lexicographically greater than the peer's id, `false` while the
local id is still unknown. -/
def politeFor (clientId : Option String) (peerId : String) : Bool :=
  match clientId with
  | some cid => decide (peerId < cid)
  | none => false

/-- Engine (`RTCPeerConnection`) calls issued by `handleSignal`. -/
inductive EngineCall
  | setRemoteDescription (sdp : String)
  | createAnswer
  | setLocalDescription
  | addIceCandidate (candidate : String)
  deriving DecidableEq

/-- Signals sent back through the relay by `handleSignal` (their SDP bodies
come from the engine and are opaque here). -/
inductive OutSignal
  | offer
  | answer
  deriving DecidableEq

/-- An incoming `signal.data` payload (src/public/app.js lines 183–207).  An
`ice` message may lack a candidate (the `data.candidate` truthiness check). -/
inductive SigData
  | offer (sdp : String)
  | answer (sdp : String)
  | ice (candidate : Option String)
  deriving DecidableEq

/-- The dispatch of `handleSignal` (src/public/app.js lines 183–207) for an
existing peer session: from the flags and the engine's current
`signalingState`, the updated flags, the engine calls issued in order, and
the signals sent. -/
def handleSignalData (meta : Meta) (signalingState : String) :
    SigData → Meta × List EngineCall × List OutSignal
  | .offer sdp =>
    let offerCollision := meta.makingOffer || signalingState != "stable"
    let ignore := !meta.polite && offerCollision
    let meta1 := { meta with ignoreOffer := ignore }
    if ignore then (meta1, [], [])
    else
      ({ meta1 with isSettingRemoteAnswerPending := false },
        [.setRemoteDescription sdp, .createAnswer, .setLocalDescription],
        [.answer])
  | .answer sdp =>
    ({ meta with isSettingRemoteAnswerPending := false },
      [.setRemoteDescription sdp], [])
  | .ice candidate =>
    match candidate with
    | some c =>
      if meta.ignoreOffer then (meta, [], []) else (meta, [.addIceCandidate c], [])
    | none => (meta, [], [])

/-- **C1**: on an incoming offer, collision is
`makingOffer || signalingState != "stable"`; an impolite session (local id
not lexicographically greater than the peer's, i.e. `politeFor` false) under
collision sets `ignoreOffer := true` and discards the offer with no engine
call and no signal; while `ignoreOffer` is true every incoming ICE candidate
is dropped; otherwise (polite, or no collision) the remote offer is
installed, a local answer is produced and installed, and `signal{answer}` is
sent. -/
theorem perfect_negotiation_incoming_offer (meta : Meta) (ss sdp : String)
    (himpolite : meta.polite = false)
    (hcollision : meta.makingOffer = true ∨ ss ≠ "stable") :
    handleSignalData meta ss (.offer sdp) = ({ meta with ignoreOffer := true }, [], [])
    ∧ (∀ (m : Meta) (ss' c : String), m.ignoreOffer = true →
        handleSignalData m ss' (.ice (some c)) = (m, [], []))
    ∧ (∀ (m : Meta) (ss' s' : String),
        m.polite = true ∨ (m.makingOffer = false ∧ ss' = "stable") →
        handleSignalData m ss' (.offer s')
          = ({ m with ignoreOffer := false, isSettingRemoteAnswerPending := false },
             [.setRemoteDescription s', .createAnswer, .setLocalDescription],
             [.answer]))
    ∧ (∀ (cid peerId : String), politeFor (some cid) peerId = false ↔ ¬ peerId < cid) := by
  refine ⟨?_, ?_, ?_, ?_⟩
  · rcases hcollision with hmk | hss
    · simp [handleSignalData, himpolite, hmk]
    · have hbne : (ss != "stable") = true := by simpa [bne] using hss
      simp [handleSignalData, himpolite, hbne]
  · intro m ss' c hign
    simp [handleSignalData, hign]
  · intro m ss' s' hok
    rcases hok with hpol | ⟨hmk, hst⟩
    · simp [handleSignalData, hpol]
    · subst hst
      simp [handleSignalData, hmk]
  · intro cid peerId
    simp [politeFor]

theorem perfect_negotiation_incoming_offer_witness :
    ((⟨false, true, false, false⟩ : Meta).polite = false
      ∧ ((⟨false, true, false, false⟩ : Meta).makingOffer = true ∨ "stable" ≠ "stable"))
    ∧ (handleSignalData ⟨false, true, false, false⟩ "stable" (.offer "remote-sdp")
        = (⟨false, true, true, false⟩, [], [])
      ∧ (∀ (m : Meta) (ss' c : String), m.ignoreOffer = true →
          handleSignalData m ss' (.ice (some c)) = (m, [], []))
      ∧ (∀ (m : Meta) (ss' s' : String),
          m.polite = true ∨ (m.makingOffer = false ∧ ss' = "stable") →
          handleSignalData m ss' (.offer s')
            = ({ m with ignoreOffer := false, isSettingRemoteAnswerPending := false },
               [.setRemoteDescription s', .createAnswer, .setLocalDescription],
               [.answer]))
      ∧ (∀ (cid peerId : String),
          politeFor (some cid) peerId = false ↔ ¬ peerId < cid)) :=
  ⟨⟨rfl, Or.inl rfl⟩,
    perfect_negotiation_incoming_offer ⟨false, true, false, false⟩ "stable"
      "remote-sdp" rfl (Or.inl rfl)⟩

/-! ### The two offer-producing paths (claim C9) -/

/-- Atomic actions of the offer-producing paths, in program order: writes to
`makingOffer`, the engine's offer-producing `setLocalDescription()` call, and
the `signal{offer}` send. -/
inductive NegoAction
  | setMakingOffer (b : Bool)
  | engineSetLocalDescription
  | sendOffer
  deriving DecidableEq

/-- The `negotiationneeded` listener (src/public/app.js lines 158–168):
return if `makingOffer` is already set; otherwise set it, ask the engine for
an offer, send `signal{offer}`, and clear the flag in a `finally` — also when
the engine call throws (`engineFails`), in which case no offer is sent. -/
def negotiationNeeded (meta : Meta) (engineFails : Bool) : Meta × List NegoAction :=
  if meta.makingOffer then (meta, [])
  else if engineFails then
    ({ meta with makingOffer := false },
      [.setMakingOffer true, .engineSetLocalDescription, .setMakingOffer false])
  else
    ({ meta with makingOffer := false },
      [.setMakingOffer true, .engineSetLocalDescription, .sendOffer,
        .setMakingOffer false])

/-- One peer's step of `renegotiatePeers` (src/public/app.js lines 313–321):
gated only on session existence and a stable signaling state; it calls the
engine's offer-producing `setLocalDescription()` and sends the offer without
touching `makingOffer`. -/
def renegotiateStep (meta : Option Meta) (signalingState : String) :
    List NegoAction :=
  match meta with
  | none => []
  | some _ =>
    if signalingState != "stable" then []
    else [.engineSetLocalDescription, .sendOffer]

/-- Trace scan: every offer-producing engine call must occur while
`makingOffer` is set. -/
def offerCallsFlaggedAux (flag : Bool) : List NegoAction → Bool
  | [] => true
  | .setMakingOffer b :: rest => offerCallsFlaggedAux b rest
  | .engineSetLocalDescription :: rest => flag && offerCallsFlaggedAux flag rest
  | .sendOffer :: rest => offerCallsFlaggedAux flag rest

/-- The value of `makingOffer` after a trace. -/
def finalMakingOffer (flag : Bool) : List NegoAction → Bool
  | [] => flag
  | .setMakingOffer b :: rest => finalMakingOffer b rest
  | _ :: rest => finalMakingOffer flag rest

/-- The discipline claim C9 asserts of every offer-producing path: starting
with the flag clear, `makingOffer` is true at every offer-producing engine
call and is clear again at the end. -/
def offerCallsFlagged (tr : List NegoAction) : Bool :=
  offerCallsFlaggedAux false tr && !(finalMakingOffer false tr)

/-- **C9 counterexample**: the renegotiation-on-local-media-change path
(`renegotiatePeers`) issues the engine's offer-producing call with
`makingOffer` never set: its trace for an existing session in the stable
state violates the flag discipline the claim asserts of every
offer-producing path. -/
theorem renegotiate_path_unflagged_counterexample :
    renegotiateStep (some ⟨false, false, false, false⟩) "stable"
        = [.engineSetLocalDescription, .sendOffer]
    ∧ offerCallsFlagged (renegotiateStep (some ⟨false, false, false, false⟩) "stable")
        = false := by decide

/-- **C9 (amended)**: the `negotiationneeded` handler maintains the
discipline — when `makingOffer` is clear it sets the flag before the engine's
offer-producing call and clears it afterwards whether or not the engine call
fails, and when `makingOffer` is already set it does nothing — but the
renegotiation-on-local-media-change path (`renegotiatePeers`) calls the
engine's offer-producing `setLocalDescription()` gated only on a stable
signaling state and never writes `makingOffer` at all. -/
theorem offer_flag_discipline (meta : Meta) (engineFails : Bool) :
    (meta.makingOffer = false →
      offerCallsFlagged (negotiationNeeded meta engineFails).2 = true
      ∧ (negotiationNeeded meta engineFails).1.makingOffer = false)
    ∧ (meta.makingOffer = true → negotiationNeeded meta engineFails = (meta, []))
    ∧ (∀ (m : Meta) (ss : String), ss = "stable" →
        renegotiateStep (some m) ss = [.engineSetLocalDescription, .sendOffer]
        ∧ ∀ b, NegoAction.setMakingOffer b ∉ renegotiateStep (some m) ss) := by
  refine ⟨?_, ?_, ?_⟩
  · intro hmk
    cases engineFails <;> simp [negotiationNeeded, hmk, offerCallsFlagged,
      offerCallsFlaggedAux, finalMakingOffer]
  · intro hmk
    simp [negotiationNeeded, hmk]
  · intro m ss hss
    subst hss
    refine ⟨by simp [renegotiateStep], ?_⟩
    intro b
    simp [renegotiateStep]

theorem offer_flag_discipline_witness :
    ((⟨false, false, false, false⟩ : Meta).makingOffer = false
      ∧ (⟨true, true, false, false⟩ : Meta).makingOffer = true
      ∧ "stable" = "stable")
    ∧ ((offerCallsFlagged (negotiationNeeded ⟨false, false, false, false⟩ false).2 = true
        ∧ (negotiationNeeded ⟨false, false, false, false⟩ false).1.makingOffer = false)
      ∧ negotiationNeeded ⟨true, true, false, false⟩ false = (⟨true, true, false, false⟩, [])
      ∧ (renegotiateStep (some ⟨false, false, false, false⟩) "stable"
          = [.engineSetLocalDescription, .sendOffer]
        ∧ ∀ b, NegoAction.setMakingOffer b
            ∉ renegotiateStep (some ⟨false, false, false, false⟩) "stable")) :=
  ⟨⟨rfl, rfl, rfl⟩,
    (offer_flag_discipline ⟨false, false, false, false⟩ false).1 rfl,
    (offer_flag_discipline ⟨true, true, false, false⟩ false).2.1 rfl,
    (offer_flag_discipline ⟨false, false, false, false⟩ false).2.2
      ⟨false, false, false, false⟩ "stable" rfl⟩

/-! ## Handshake response (`src/server.js`, lines 120–144) -/

/-- The handshake response body the upgrade handler writes (src/server.js
lines 135–144): the header lines joined with the source's separator literal,
which in JavaScript (`'\\r\\n'`) denotes the four characters
backslash-r-backslash-n — not the CRLF byte sequence. -/
def upgradeResponse (accept : String) : String :=
  String.intercalate "\\r\\n"
    ["HTTP/1.1 101 Switching Protocols", "Upgrade: websocket",
     "Connection: Upgrade", "Sec-WebSocket-Accept: " ++ accept, "", ""]

/-- The response as the specification words it (§4.2's standard upgrade
handshake): the same lines each terminated by CRLF (0x0D 0x0A), the final
empty line ending the header block. -/
def upgradeResponseSpec (accept : String) : String :=
  String.intercalate "\r\n"
    ["HTTP/1.1 101 Switching Protocols", "Upgrade: websocket",
     "Connection: Upgrade", "Sec-WebSocket-Accept: " ++ accept, "", ""]

/-- **C3 (code bug)**: at the failing input (the accept value of the RFC
example key), the response the code writes contains no CR and no LF
character at all — the lines are separated by the two-character escape text
backslash-r-backslash-n — so it is not the CRLF-terminated header block the
claim requires. -/
theorem upgrade_response_not_crlf :
    '\r' ∉ (upgradeResponse "s3pPLMBiTxaQ9kYGzzhZRbK+xOo=").toList
    ∧ '\n' ∉ (upgradeResponse "s3pPLMBiTxaQ9kYGzzhZRbK+xOo=").toList
    ∧ upgradeResponse "s3pPLMBiTxaQ9kYGzzhZRbK+xOo="
        ≠ upgradeResponseSpec "s3pPLMBiTxaQ9kYGzzhZRbK+xOo=" := by decide

/-! ## Accept credential (`src/server.js`, lines 131–134)

`crypto.createHash('sha1')` and `digest('base64')` are platform primitives;
they are embedded by the standard SHA-1 (FIPS 180-4) and base64 (RFC 4648)
algorithms below, applied to the bytes of `key ++ magic GUID` exactly as the
source's template literal concatenates them. -/

/-- 32-bit rotate left (`x < 2^32`). -/
def rotl32 (n x : Nat) : Nat :=
  (x * 2 ^ n + x / 2 ^ (32 - n)) % 4294967296

/-- Big-endian byte expansion of a 64-bit value. -/
def be64 (n : Nat) : List Nat :=
  [n / 2 ^ 56 % 256, n / 2 ^ 48 % 256, n / 2 ^ 40 % 256, n / 2 ^ 32 % 256,
   n / 2 ^ 24 % 256, n / 2 ^ 16 % 256, n / 2 ^ 8 % 256, n % 256]

/-- Big-endian byte expansion of a 32-bit word. -/
def be32 (n : Nat) : List Nat :=
  [n / 2 ^ 24 % 256, n / 2 ^ 16 % 256, n / 2 ^ 8 % 256, n % 256]

/-- SHA-1 padding: `0x80`, zeros up to 56 mod 64, then the 64-bit bit
length. -/
def sha1Pad (msg : List Nat) : List Nat :=
  msg ++ 0x80 :: (List.replicate ((119 - msg.length % 64) % 64) 0
    ++ be64 (msg.length * 8))

/-- The sixteen 32-bit big-endian words of one 64-byte block. -/
def blockWords (block : List Nat) : List Nat :=
  (List.range 16).map (fun i =>
    ((block.getD (4 * i) 0 * 256 + block.getD (4 * i + 1) 0) * 256
      + block.getD (4 * i + 2) 0) * 256 + block.getD (4 * i + 3) 0)

/-- Message-schedule expansion from 16 to 80 words. -/
def sha1Schedule (ws : List Nat) : List Nat :=
  (List.range 64).foldl
    (fun acc _ => acc ++ [rotl32 1
      (acc.getD (acc.length - 3) 0 ^^^ acc.getD (acc.length - 8) 0
        ^^^ acc.getD (acc.length - 14) 0 ^^^ acc.getD (acc.length - 16) 0)]) ws

/-- The round function (`¬b` as XOR with the all-ones 32-bit word). -/
def sha1F (i b c d : Nat) : Nat :=
  if i < 20 then (b &&& c) ||| ((b ^^^ 4294967295) &&& d)
  else if i < 40 then b ^^^ c ^^^ d
  else if i < 60 then (b &&& c) ||| (b &&& d) ||| (c &&& d)
  else b ^^^ c ^^^ d

/-- The round constants. -/
def sha1K (i : Nat) : Nat :=
  if i < 20 then 0x5A827999
  else if i < 40 then 0x6ED9EBA1
  else if i < 60 then 0x8F1BBCDC
  else 0xCA62C1D6

/-- Compression of one 64-byte block into the running state. -/
def sha1Block (h : Nat × Nat × Nat × Nat × Nat) (block : List Nat) :
    Nat × Nat × Nat × Nat × Nat :=
  let w := sha1Schedule (blockWords block)
  let step := fun (st : Nat × Nat × Nat × Nat × Nat) (i : Nat) =>
    let t := (rotl32 5 st.1 + sha1F i st.2.1 st.2.2.1 st.2.2.2.1 + st.2.2.2.2
      + sha1K i + w.getD i 0) % 4294967296
    (t, st.1, rotl32 30 st.2.1, st.2.2.1, st.2.2.2.1)
  let f := (List.range 80).foldl step h
  ((h.1 + f.1) % 4294967296, (h.2.1 + f.2.1) % 4294967296,
    (h.2.2.1 + f.2.2.1) % 4294967296, (h.2.2.2.1 + f.2.2.2.1) % 4294967296,
    (h.2.2.2.2 + f.2.2.2.2) % 4294967296)

/-- SHA-1 digest (20 bytes) of a byte list. -/
def sha1 (msg : List Nat) : List Nat :=
  let padded := sha1Pad msg
  let blocks := (List.range (padded.length / 64)).map
    (fun i => (padded.drop (64 * i)).take 64)
  let f := blocks.foldl sha1Block
    (0x67452301, 0xEFCDAB89, 0x98BADCFE, 0x10325476, 0xC3D2E1F0)
  be32 f.1 ++ be32 f.2.1 ++ be32 f.2.2.1 ++ be32 f.2.2.2.1 ++ be32 f.2.2.2.2

/-- The base64 alphabet (RFC 4648). -/
def base64Chars : List Char :=
  "ABCDEFGHIJKLMNOPQRSTUVWXYZabcdefghijklmnopqrstuvwxyz0123456789+/".toList

/-- One base64 output group for up to three input bytes. -/
def base64Group : List Nat → List Char
  | [b0, b1, b2] =>
    [base64Chars.getD (b0 / 4) 'A',
     base64Chars.getD (b0 % 4 * 16 + b1 / 16) 'A',
     base64Chars.getD (b1 % 16 * 4 + b2 / 64) 'A',
     base64Chars.getD (b2 % 64) 'A']
  | [b0, b1] =>
    [base64Chars.getD (b0 / 4) 'A',
     base64Chars.getD (b0 % 4 * 16 + b1 / 16) 'A',
     base64Chars.getD (b1 % 16 * 4) 'A', '=']
  | [b0] =>
    [base64Chars.getD (b0 / 4) 'A',
     base64Chars.getD (b0 % 4 * 16) 'A', '=', '=']
  | _ => []

/-- base64 encoding, three input bytes at a time. -/
def base64Go : List Nat → List Char
  | b0 :: b1 :: b2 :: rest => base64Group [b0, b1, b2] ++ base64Go rest
  | [] => []
  | leftover => base64Group leftover

/-- base64 encoding of a byte list. -/
def base64Encode (bytes : List Nat) : String :=
  String.mk (base64Go bytes)

/-- The UTF-8 bytes of an ASCII string (the handshake key and the magic GUID
are ASCII, on which UTF-8 is the identity). -/
def asciiBytes (s : String) : List Nat := s.toList.map Char.toNat

/-- The accept credential (src/server.js lines 131–134):
`base64(SHA-1(key ++ "258EAFA5-E914-47DA-95CA-C5AB0DC85B11"))`. -/
def computeAccept (key : String) : String :=
  base64Encode (sha1 (asciiBytes (key ++ "258EAFA5-E914-47DA-95CA-C5AB0DC85B11")))

set_option maxRecDepth 10000 in
/-- **C4**: the accept credential is `base64(SHA-1(key ++ magic GUID))` —
the code computes exactly this composition — and on the protocol's example
key `"dGhlIHNhbXBsZSBub25jZQ=="` it equals
`"s3pPLMBiTxaQ9kYGzzhZRbK+xOo="`. -/
theorem accept_credential_formula :
    (∀ key : String, computeAccept key
      = base64Encode (sha1 (asciiBytes
          (key ++ "258EAFA5-E914-47DA-95CA-C5AB0DC85B11"))))
    ∧ computeAccept "dGhlIHNhbXBsZSBub25jZQ==" = "s3pPLMBiTxaQ9kYGzzhZRbK+xOo=" :=
  ⟨fun _ => rfl, by decide⟩

end D2D
